import Mathlib

/-!
Shallow embedding of the resilient LLM-output recovery parser
(`back/backend/model/parser_llm.py`) and proofs about its behaviour.

Python strings are modelled as Lean `String`/`List Char`; Python dicts as
insertion-ordered association lists; `json.loads` as a strict JSON decoder
(`json_loads`).  The optional permissive `demjson3` fallback of
`_try_parsers` is modelled as absent (`demjson3` is an optional dependency
guarded at load time; without it `_try_parsers` is exactly the strict
decode).  All functions are executable and structurally recursive (fuel is
used where the Python code loops over string positions; the fuel is always
at least the input length, which the scans never exceed), so every claim can
be evaluated on concrete inputs by kernel reduction.
-/

namespace ParserLLM

/-- JSON-like Python values produced by the decoder.  Arrays and objects are
encoded as cons spines inside the single inductive (instead of nesting
`List JVal`) so that every function on values is structurally recursive and
kernel-computable; `jarr`/`jobj` build the spine from Lean lists and
`asArr`/`asObj` decompose it.  Python floats are modelled as exact
fractions (numerator and positive denominator, not necessarily reduced),
which suffices for the parser's `float.is_integer` coercion; `bool` is kept
separate but is treated as an `int` wherever the Python code relies on
`isinstance(x, int)` accepting booleans. -/
inductive JVal : Type where
  | null : JVal
  | bool : Bool → JVal
  | int : Int → JVal
  | float : Int → Nat → JVal
  | str : String → JVal
  | nilA : JVal
  | consA : JVal → JVal → JVal
  | nilO : JVal
  | consO : String → JVal → JVal → JVal
deriving Repr, DecidableEq

/-- Build an array value from a list of elements. -/
def jarr (xs : List JVal) : JVal := xs.foldr .consA .nilA

/-- Build an object value from an ordered field list. -/
def jobj (ms : List (String × JVal)) : JVal :=
  ms.foldr (fun p t => .consO p.1 p.2 t) .nilO

/-- View a value as a Python list (`isinstance(v, list)`). -/
def asArr : JVal → Option (List JVal)
  | .nilA => some []
  | .consA h t => (asArr t).map (fun xs => h :: xs)
  | _ => none

/-- View a value as a Python dict (`isinstance(v, dict)`). -/
def asObj : JVal → Option (List (String × JVal))
  | .nilO => some []
  | .consO k v t => (asObj t).map (fun ms => (k, v) :: ms)
  | _ => none

/-- Python dict key-membership (`k in d`). -/
def dContains (o : List (String × JVal)) (k : String) : Bool :=
  o.any (fun p => p.1 == k)

/-- Python dict lookup (`d.get(k)`). -/
def dGet (o : List (String × JVal)) (k : String) : Option JVal :=
  (o.find? (fun p => p.1 == k)).map (fun p => p.2)

/-- Python dict assignment `d[k] = v`: updates in place when the key exists
(keeping its position), otherwise appends at the end. -/
def dSet (o : List (String × JVal)) (k : String) (v : JVal) :
    List (String × JVal) :=
  match o with
  | [] => [(k, v)]
  | (k', v') :: rest =>
      if k' == k then (k', v) :: rest else (k', v') :: dSet rest k v

/-- Python dict removal `d.pop(k, None)`. -/
def dPop (o : List (String × JVal)) (k : String) : List (String × JVal) :=
  o.filter (fun p => p.1 != k)

/-- Numeric view used by Python `==` (`True == 1`, `1.0 == 1`, ...):
numerator and denominator of the value as a fraction. -/
def pyNum (v : JVal) : Option (Int × Nat) :=
  match v with
  | .bool b => some (if b then 1 else 0, 1)
  | .int n => some (n, 1)
  | .float n d => some (n, d)
  | _ => none

/-- Python equality on the values the parser deduplicates (numbers compare
across `bool`/`int`/`float` by cross-multiplication; everything the code
actually hashes is a number, and other values fall back to structural
equality). -/
def pyEq (a b : JVal) : Bool :=
  match pyNum a, pyNum b with
  | some x, some y => x.1 * (y.2 : Int) == y.1 * (x.2 : Int)
  | _, _ => decide (a = b)

/-- `list(dict.fromkeys(xs))`: drop duplicates, keeping first occurrences. -/
def pyDedup (xs : List JVal) : List JVal :=
  xs.foldl (fun acc x => if acc.any (fun y => pyEq y x) then acc else acc ++ [x]) []

/-! ### Strict JSON decoding (model of `json.loads`) -/

/-- JSON inter-token whitespace. -/
def jWs (c : Char) : Bool := c == ' ' || c == '\t' || c == '\n' || c == '\r'

def skipWs (l : List Char) : List Char := l.dropWhile jWs

def hexVal (c : Char) : Option Nat :=
  if '0' ≤ c ∧ c ≤ '9' then some (c.toNat - 48)
  else if 'a' ≤ c ∧ c ≤ 'f' then some (c.toNat - 87)
  else if 'A' ≤ c ∧ c ≤ 'F' then some (c.toNat - 55)
  else none

/-- Decode a JSON string body (after the opening quote); returns the decoded
string and the input after the closing quote.  Control characters must be
escaped (strict mode); `\uXXXX` yields the character with that code. -/
def parseJStr : Nat → List Char → List Char → Option (String × List Char)
  | 0, _, _ => none
  | _ + 1, _, [] => none
  | f + 1, acc, c :: cs =>
    if c = '"' then some (String.mk acc.reverse, cs)
    else if c = '\\' then
      match cs with
      | [] => none
      | e :: cs' =>
        if e = '"' then parseJStr f ('"' :: acc) cs'
        else if e = '\\' then parseJStr f ('\\' :: acc) cs'
        else if e = '/' then parseJStr f ('/' :: acc) cs'
        else if e = 'b' then parseJStr f ('\x08' :: acc) cs'
        else if e = 'f' then parseJStr f ('\x0c' :: acc) cs'
        else if e = 'n' then parseJStr f ('\n' :: acc) cs'
        else if e = 'r' then parseJStr f ('\r' :: acc) cs'
        else if e = 't' then parseJStr f ('\t' :: acc) cs'
        else if e = 'u' then
          match cs' with
          | h1 :: h2 :: h3 :: h4 :: cs'' =>
            match hexVal h1, hexVal h2, hexVal h3, hexVal h4 with
            | some a, some b, some c2, some d =>
                parseJStr f (Char.ofNat (((a * 16 + b) * 16 + c2) * 16 + d) :: acc) cs''
            | _, _, _, _ => none
          | _ => none
        else none
    else if c.toNat < 32 then none
    else parseJStr f (c :: acc) cs

def digsToNat (ds : List Char) : Nat :=
  ds.foldl (fun a c => a * 10 + (c.toNat - 48)) 0

/-- Match the optional fraction part `\.\d+` (returns the digits and the
rest; on no match returns the input unchanged). -/
def matchFrac (l : List Char) : List Char × List Char :=
  match l with
  | '.' :: r =>
    let ds := r.takeWhile Char.isDigit
    if ds.isEmpty then ([], '.' :: r) else (ds, r.dropWhile Char.isDigit)
  | _ => ([], l)

/-- Match the optional exponent part `[eE][-+]?\d+`. -/
def matchExp (l : List Char) : Option Int × List Char :=
  match l with
  | c :: r =>
    if c = 'e' ∨ c = 'E' then
      let sr : Int × List Char :=
        match r with
        | '+' :: rr => (1, rr)
        | '-' :: rr => (-1, rr)
        | _ => (1, r)
      let ds := sr.2.takeWhile Char.isDigit
      if ds.isEmpty then (none, c :: r)
      else (some (sr.1 * (digsToNat ds : Int)), sr.2.dropWhile Char.isDigit)
    else (none, c :: r)
  | [] => (none, [])

/-- JSON number grammar `-?(0|[1-9]\d*)(\.\d+)?([eE][-+]?\d+)?`; integers
decode to `JVal.int`, anything with a fraction or exponent to `JVal.float`.
Leading zeros are rejected, as in strict JSON. -/
def parseJNum (l : List Char) : Option (JVal × List Char) :=
  let nl : Bool × List Char :=
    match l with
    | '-' :: rest => (true, rest)
    | _ => (false, l)
  let intPart := nl.2.takeWhile Char.isDigit
  let rest1 := nl.2.dropWhile Char.isDigit
  if intPart.isEmpty then none
  else if intPart.length > 1 ∧ intPart.headD '0' = '0' then none
  else
    let fr := matchFrac rest1
    let ex := matchExp fr.2
    if fr.1.isEmpty ∧ ex.1.isNone then
      some (.int (if nl.1 then -(digsToNat intPart : Int) else (digsToNat intPart : Int)), rest1)
    else
      let k := fr.1.length
      let mant : Int := (digsToNat intPart * 10 ^ k + digsToNat fr.1 : Nat)
      let mant := if nl.1 then -mant else mant
      let e : Int := ex.1.getD 0
      let fv : JVal :=
        if 0 ≤ e then .float (mant * (10 : Int) ^ e.toNat) (10 ^ k)
        else .float mant (10 ^ k * 10 ^ (-e).toNat)
      some (fv, ex.2)

def litPrefix (lit : List Char) (l : List Char) : Option (List Char) :=
  if lit.isPrefixOf l then some (l.drop lit.length) else none

/-- Array elements after a non-empty opening (`pv` decodes one value). -/
def parseElems (pv : List Char → Option (JVal × List Char)) :
    Nat → List JVal → List Char → Option (JVal × List Char)
  | 0, _, _ => none
  | f + 1, acc, l =>
    match pv l with
    | none => none
    | some (v, r) =>
      match skipWs r with
      | ',' :: r2 => parseElems pv f (v :: acc) r2
      | ']' :: r2 => some (jarr (v :: acc).reverse, r2)
      | _ => none

/-- Object members after a non-empty opening.  Duplicate keys overwrite the
earlier value in place, as in Python's dict building. -/
def parseMembers (pv : List Char → Option (JVal × List Char)) :
    Nat → List (String × JVal) → List Char → Option (JVal × List Char)
  | 0, _, _ => none
  | f + 1, acc, l =>
    match skipWs l with
    | '"' :: cs =>
      match parseJStr (cs.length + 1) [] cs with
      | none => none
      | some (k, r) =>
        match skipWs r with
        | ':' :: r2 =>
          match pv r2 with
          | none => none
          | some (v, r3) =>
            match skipWs r3 with
            | ',' :: r4 => parseMembers pv f (dSet acc k v) r4
            | '}' :: r4 => some (jobj (dSet acc k v), r4)
            | _ => none
        | _ => none
    | _ => none

/-- One JSON value (strict).  Fuel bounds the nesting depth; the top-level
entry point supplies fuel exceeding the input length, which nesting can
never reach. -/
def parseVal : Nat → List Char → Option (JVal × List Char)
  | 0 => fun _ => none
  | f + 1 => fun l =>
    match skipWs l with
    | [] => none
    | c :: cs =>
      if c = '"' then (parseJStr (cs.length + 1) [] cs).map (fun p => (JVal.str p.1, p.2))
      else if c = '{' then
        match skipWs cs with
        | '}' :: r => some (jobj [], r)
        | _ => parseMembers (parseVal f) (cs.length + 1) [] cs
      else if c = '[' then
        match skipWs cs with
        | ']' :: r => some (jarr [], r)
        | _ => parseElems (parseVal f) (cs.length + 1) [] cs
      else if c = 't' then (litPrefix ['r', 'u', 'e'] cs).map (fun r => (JVal.bool true, r))
      else if c = 'f' then (litPrefix ['a', 'l', 's', 'e'] cs).map (fun r => (JVal.bool false, r))
      else if c = 'n' then (litPrefix ['u', 'l', 'l'] cs).map (fun r => (JVal.null, r))
      else parseJNum (c :: cs)

/-- Model of `json.loads`: one strict JSON document with only whitespace
around it. -/
def json_loads (s : String) : Option JVal :=
  match parseVal (s.length + 1) s.data with
  | some (v, r) => if (skipWs r).isEmpty then some v else none
  | none => none

/-- `_try_parsers`: strict decode; the permissive `demjson3` second tier is
modelled as absent (optional dependency, guarded import). -/
def try_parsers (s : String) : Option JVal := json_loads s

/-! ### `json.dumps` (as used by the scorer's substring checks) -/

def escChar (c : Char) : List Char :=
  if c = '"' then ['\\', '"']
  else if c = '\\' then ['\\', '\\']
  else if c = '\n' then ['\\', 'n']
  else if c = '\r' then ['\\', 'r']
  else if c = '\t' then ['\\', 't']
  else if c = '\x08' then ['\\', 'b']
  else if c = '\x0c' then ['\\', 'f']
  else if c.toNat < 32 then
    ['\\', 'u', '0', '0',
      (if c.toNat / 16 < 10 then Char.ofNat (48 + c.toNat / 16) else Char.ofNat (87 + c.toNat / 16)),
      (if c.toNat % 16 < 10 then Char.ofNat (48 + c.toNat % 16) else Char.ofNat (87 + c.toNat % 16))]
  else [c]

def dumpStr (s : String) : String :=
  String.mk ('"' :: (s.data.map escChar).flatten ++ ['"'])

/-- Serializer with `ensure_ascii=False` and the default `", "`/`": "`
separators.  The flag distinguishes continuing a spine (emit separator and,
at the end, the closer) from starting a fresh value.  Floats are rendered
via `Rat`'s `toString`; a float rendering never contains a `"`, so this
cannot affect the scorer's substring checks. -/
def dumpsGo : Bool → JVal → String
  | _, .null => "null"
  | _, .bool b => if b then "true" else "false"
  | _, .int n => toString n
  | _, .float n d => toString n ++ "/" ++ toString d
  | _, .str s => dumpStr s
  | t, .nilA => if t then "]" else "[]"
  | t, .consA h tl =>
      (if t then ", " else "[") ++ dumpsGo false h ++ dumpsGo true tl
  | t, .nilO => if t then "\x7d" else "\x7b\x7d"
  | t, .consO k v tl =>
      (if t then ", " else "\x7b") ++ dumpStr k ++ ": " ++ dumpsGo false v ++ dumpsGo true tl

def json_dumps (v : JVal) : String := dumpsGo false v

/-! ### Regex-substitution machinery

Each Python `re.sub` pass is modelled as a left-to-right scan: at every
position a matcher either recognizes a match (returning the replacement and
the remaining input after the match, so scanning resumes there, exactly as
`re.sub` does with non-overlapping matches) or the character is copied and
the scan moves on by one.  Fuel is the input length plus one; every match
consumes at least one character, so the fuel never runs out. -/

def subF (m : List Char → Option (List Char × List Char)) :
    Nat → List Char → List Char
  | 0 => fun l => l
  | f + 1 => fun l =>
    match l with
    | [] => []
    | c :: cs =>
      match m (c :: cs) with
      | some (rep, rest) => rep ++ subF m f rest
      | none => c :: subF m f cs

def runSub (m : List Char → Option (List Char × List Char)) (l : List Char) :
    List Char :=
  subF m (l.length + 1) l

/-- Variant passing the already-scanned original text (reversed) to the
matcher, for the one lookbehind pattern. -/
def subPrevF (m : List Char → List Char → Option (List Char × List Char)) :
    Nat → List Char → List Char → List Char
  | 0 => fun _ l => l
  | f + 1 => fun prevRev l =>
    match l with
    | [] => []
    | c :: cs =>
      match m prevRev (c :: cs) with
      | some (rep, rest) =>
          rep ++ subPrevF m f
            (((c :: cs).take ((c :: cs).length - rest.length)).reverse ++ prevRev) rest
      | none => c :: subPrevF m f (c :: prevRev) cs

/-- Python regex `\s` (the ASCII whitespace class as it applies here). -/
def pyWs (c : Char) : Bool :=
  c == ' ' || c == '\t' || c == '\n' || c == '\r' || c == '\x0b' || c == '\x0c'

/-- Python regex `\w` (ASCII range, as the parser's inputs use). -/
def wordChar (c : Char) : Bool := c.isAlpha || c.isDigit || c == '_'

/-- Python `str.isspace` (the whitespace code points relevant here). -/
def pyStrSpace (c : Char) : Bool :=
  pyWs c || c == '\x1c' || c == '\x1d' || c == '\x1e' || c == '\x1f' ||
  c == '\x85' || c == '\xa0' || c.toNat == 0x1680 ||
  (0x2000 ≤ c.toNat && c.toNat ≤ 0x200a) ||
  c.toNat == 0x2028 || c.toNat == 0x2029 || c.toNat == 0x202f ||
  c.toNat == 0x205f || c.toNat == 0x3000

/-! ### Text Normalizer (`_strip_wrappers`, `_base_clean`) -/

/-- Matcher for the wrapper-token pattern: a `<|`, at most 200 non-pipe
characters, then `|>`. -/
def wrapperM (l : List Char) : Option (List Char × List Char) :=
  match l with
  | '<' :: '|' :: rest =>
    let content := rest.takeWhile (fun c => c != '|')
    if content.length ≤ 200 then
      match rest.drop content.length with
      | '|' :: '>' :: after => some ([], after)
      | _ => none
    else none
  | _ => none

def strip_wrappers (s : String) : String := String.mk (runSub wrapperM s.data)

/-- Matcher for a `//` line comment (up to, not including, the newline). -/
def lineCommentM (l : List Char) : Option (List Char × List Char) :=
  match l with
  | '/' :: '/' :: rest => some ([], rest.dropWhile (fun c => c != '\n'))
  | _ => none

/-- Distance to the first closing `*/`, if any. -/
def findBlockClose : Nat → List Char → Option Nat
  | _, [] => none
  | 0, _ => none
  | _ + 1, '*' :: '/' :: _ => some 0
  | f + 1, _ :: rest => (findBlockClose f rest).map (fun n => n + 1)

/-- Matcher for a `/* ... */` block comment (lazy, requires the closer). -/
def blockCommentM (l : List Char) : Option (List Char × List Char) :=
  match l with
  | '/' :: '*' :: rest =>
    (findBlockClose (rest.length + 1) rest).map (fun d => ([], rest.drop (d + 2)))
  | _ => none

/-- `_base_clean`: strip wrapper tokens, then `//` and block comments, then
NUL and vertical-tab characters. -/
def base_clean (s : String) : String :=
  let l := (strip_wrappers s).data
  let l := runSub lineCommentM l
  let l := runSub blockCommentM l
  String.mk (l.filter (fun c => c != '\x00' && c != '\x0b'))

/-! ### `_replace_type_placeholders` -/

/-- Case-insensitive literal match. -/
def ciPrefix : List Char → List Char → Option (List Char)
  | [], l => some l
  | _, [] => none
  | p :: ps, c :: cs => if c.toLower = p then ciPrefix ps cs else none

/-- The alternation `(int|integer|string|str|float|number|boolean|bool)` in
the source's order, each checked with a trailing word boundary, mirroring
regex backtracking. -/
def kwList : List (List Char) :=
  [['i','n','t'], ['i','n','t','e','g','e','r'],
   ['s','t','r','i','n','g'], ['s','t','r'],
   ['f','l','o','a','t'], ['n','u','m','b','e','r'],
   ['b','o','o','l','e','a','n'], ['b','o','o','l']]

def tryKws : List (List Char) → List Char → Option (List Char)
  | [], _ => none
  | k :: ks, l =>
    match ciPrefix k l with
    | some rest => if wordChar (rest.headD '.') then tryKws ks l else some rest
    | none => tryKws ks l

def typeM (l : List Char) : Option (List Char × List Char) :=
  match l with
  | ':' :: rest =>
    (tryKws kwList (rest.dropWhile pyWs)).map (fun after => ((": null").data, after))
  | _ => none

def replace_type_placeholders (s : String) : String :=
  String.mk (runSub typeM s.data)

/-! ### `_normalize_stage2_stray_segments` -/

/-- Matcher for `,\s*"scID"\s*:` (replaced by `,{"scID":`). -/
def scidCommaM (l : List Char) : Option (List Char × List Char) :=
  match l with
  | ',' :: rest =>
    match litPrefix "\"scID\"".data (rest.dropWhile pyWs) with
    | some r2 =>
      match r2.dropWhile pyWs with
      | ':' :: after => some ((",\x7b\"scID\":").data, after)
      | _ => none
    | none => none
  | _ => none

/-- Start-anchored `^\s*"scID"\s*:` (replaced by `{"scID":`). -/
def scidStartM (l : List Char) : Option (List Char × List Char) :=
  match litPrefix "\"scID\"".data (l.dropWhile pyWs) with
  | some r2 =>
    match r2.dropWhile pyWs with
    | ':' :: after => some (("\x7b\"scID\":").data, after)
    | _ => none
  | none => none

def normalize_stage2_stray_segments (s : String) : String :=
  let l := runSub scidCommaM s.data
  match scidStartM l with
  | some (rep, rest) => String.mk (rep ++ rest)
  | none => String.mk l

/-! ### `_fix_comma_issues` -/

def braceBraceM (l : List Char) : Option (List Char × List Char) :=
  match l with
  | '}' :: rest =>
    match rest.dropWhile pyWs with
    | '{' :: after => some (['}', ',', '{'], after)
    | _ => none
  | _ => none

def brackBraceM (l : List Char) : Option (List Char × List Char) :=
  match l with
  | ']' :: rest =>
    match rest.dropWhile pyWs with
    | '{' :: after => some ([']', ',', '{'], after)
    | _ => none
  | _ => none

/-- `(?<=\bnull)\s*{` → `,{`: fires where the already-scanned text ends in
the word `null`. -/
def nullBraceM (prevRev l : List Char) : Option (List Char × List Char) :=
  match prevRev with
  | 'l' :: 'l' :: 'u' :: 'n' :: before =>
    if wordChar (before.headD '.') then none
    else
      match l.dropWhile pyWs with
      | '{' :: after => some ([',', '{'], after)
      | _ => none
  | _ => none

/-- `}\s*(?=null\b)` → `},`: the lookahead is not consumed. -/
def braceNullM (l : List Char) : Option (List Char × List Char) :=
  match l with
  | '}' :: rest =>
    let r := rest.dropWhile pyWs
    match litPrefix "null".data r with
    | some after =>
        if wordChar (after.headD '.') then none else some (['}', ','], r)
    | none => none
  | _ => none

def commaCommaM (l : List Char) : Option (List Char × List Char) :=
  match l with
  | ',' :: rest =>
    match rest.dropWhile pyWs with
    | ',' :: after => some ([','], after)
    | _ => none
  | _ => none

def fix_comma_issues (s : String) : String :=
  let l := runSub braceBraceM s.data
  let l := runSub brackBraceM l
  let l := subPrevF nullBraceM (l.length + 1) [] l
  let l := runSub braceNullM l
  String.mk (runSub commaCommaM l)

/-! ### `_remove_strays` -/

def strayBraceM (l : List Char) : Option (List Char × List Char) :=
  match l with
  | '{' :: '"' :: '}' :: after => some (['}'], after)
  | _ => none

/-- `"explanation"\s*:\s*string\b` (case-insensitive) → `"explanation": ""`. -/
def explStringM (l : List Char) : Option (List Char × List Char) :=
  match ciPrefix "\"explanation\"".data l with
  | some r1 =>
    match r1.dropWhile pyWs with
    | ':' :: r2 =>
      match ciPrefix "string".data (r2.dropWhile pyWs) with
      | some after =>
          if wordChar (after.headD '.') then none
          else some (("\"explanation\": \"\"").data, after)
      | none => none
    | _ => none
  | none => none

/-- `(":)\s*string\b` (case-sensitive) → `": ""`. -/
def colonStringM (l : List Char) : Option (List Char × List Char) :=
  match l with
  | '"' :: ':' :: rest =>
    match litPrefix "string".data (rest.dropWhile pyWs) with
    | some after =>
        if wordChar (after.headD '.') then none
        else some (("\": \"\"").data, after)
    | none => none
  | _ => none

def remove_strays (s : String) : String :=
  let l := runSub strayBraceM s.data
  let l := runSub explStringM l
  String.mk (runSub colonStringM l)

/-! ### `_quote_unquoted_object_keys_safe` -/

def allowedKeyChar (c : Char) : Bool :=
  c.isAlpha || c.isDigit || c == '_' || c == '@' || c == '-'

/-- The state machine of the source: `lastNW` is the last non-whitespace
character seen outside string literals (`none` models the initial empty
marker; string literals never update it, exactly as in the source). -/
def quoteKeysGo : Nat → Bool → Bool → Option Char → List Char → List Char
  | 0, _, _, _, l => l
  | f + 1, instr, esc, lastNW, l =>
    match l with
    | [] => []
    | c :: cs =>
      if instr then
        if esc then c :: quoteKeysGo f true false lastNW cs
        else if c = '\\' then c :: quoteKeysGo f true true lastNW cs
        else if c = '"' then c :: quoteKeysGo f false false lastNW cs
        else c :: quoteKeysGo f true false lastNW cs
      else if c = '"' then c :: quoteKeysGo f true false lastNW cs
      else if lastNW = none ∨ lastNW = some '{' ∨ lastNW = some ',' then
        if pyStrSpace c then c :: quoteKeysGo f false false lastNW cs
        else
          let tok := (c :: cs).takeWhile allowedKeyChar
          let rest := (c :: cs).drop tok.length
          let ws := rest.takeWhile pyStrSpace
          let rest2 := rest.drop ws.length
          if tok ≠ [] ∧ rest2.headD ' ' = ':' then
            '"' :: tok ++ '"' :: ws ++ ':' ::
              quoteKeysGo f false false (some ':') (rest2.drop 1)
          else
            c :: quoteKeysGo f false false (some c) cs
      else
        c :: quoteKeysGo f false false (if pyStrSpace c then lastNW else some c) cs

def quote_unquoted_object_keys_safe (s : String) : String :=
  String.mk (quoteKeysGo (s.data.length + 1) false false none s.data)

/-! ### `_sanitize_field_quotes` / `_sanitize_text_fields` -/

/-- Deterministic match of the regex group `[^"\\]*(?:\\.[^"\\]*)*` followed
by the closing quote: returns the group and the input after that quote.
(`.` does not match a newline, so a backslash-newline aborts the match, as
in the regex.) -/
def sfqBody : Nat → List Char → Option (List Char × List Char)
  | 0, _ => none
  | f + 1, l =>
    let seg := l.takeWhile (fun c => c != '"' && c != '\\')
    match l.drop seg.length with
    | '"' :: rest => some (seg, rest)
    | '\\' :: d :: rest =>
        if d = '\n' then none
        else (sfqBody f rest).map (fun p => (seg ++ '\\' :: d :: p.1, p.2))
    | _ => none

/-- The character loop of `_sanitize_field_quotes`: escape a quote whose
predecessor is not a backslash.  (The matched group can never contain an
unescaped quote, so on real matches this is the identity — the source's
escape branch is dead; it is still ported faithfully.) -/
def sanitizeLoop : List Char → Option Char → List Char
  | [], _ => []
  | c :: cs, prev =>
    if c = '"' ∧ prev ≠ some '\\' then '\\' :: '"' :: sanitizeLoop cs (some c)
    else c :: sanitizeLoop cs (some c)

/-- Matcher for `"fld"\s*:\s*"(group)"`, rewritten as `"fld":"(escaped)"`. -/
def fieldM (fld : List Char) (l : List Char) : Option (List Char × List Char) :=
  match litPrefix ('"' :: fld ++ ['"']) l with
  | none => none
  | some r1 =>
    match r1.dropWhile pyWs with
    | ':' :: r3 =>
      match r3.dropWhile pyWs with
      | '"' :: r5 =>
        match sfqBody (r5.length + 1) r5 with
        | none => none
        | some (body, rest) =>
            some ('"' :: fld ++ '"' :: ':' :: '"' :: sanitizeLoop body none ++ ['"'], rest)
      | _ => none
    | _ => none

def sanitize_field_quotes (s : String) (fld : String) : String :=
  String.mk (runSub (fieldM fld.data) s.data)

def sanitize_text_fields (s : String) : String :=
  let s := sanitize_field_quotes s "rsn"
  let s := sanitize_field_quotes s "adv"
  let s := sanitize_field_quotes s "explanation"
  sanitize_field_quotes s "new_text"

/-! ### String-aware bracket scanning (`_autoclose`, `_balanced_slice`,
`_find_regions`) -/

/-- State of the string-aware bracket scan: inside-string flag, escape flag,
and the stack of expected closers (head = most recently opened). -/
structure ScanSt where
  instr : Bool
  esc : Bool
  stack : List Char
deriving Repr, DecidableEq

/-- One step of the scan shared by `_autoclose`, `_balanced_slice` and
`_find_regions`. -/
def scanStep (st : ScanSt) (c : Char) : ScanSt :=
  if st.instr then
    if st.esc then { st with esc := false }
    else if c = '\\' then { st with esc := true }
    else if c = '"' then { st with instr := false }
    else st
  else if c = '"' then { st with instr := true }
  else if c = '{' then { st with stack := '}' :: st.stack }
  else if c = '[' then { st with stack := ']' :: st.stack }
  else if c = '}' ∨ c = ']' then
    match st.stack with
    | t :: rest => if t = c then { st with stack := rest } else st
    | [] => st
  else st

def scanFold (l : List Char) : ScanSt := l.foldl scanStep ⟨false, false, []⟩

/-- Closer stack left pending after scanning a string. -/
def stackOf (s : String) : List Char := (scanFold s.data).stack

/-- Whether a string ends inside a string literal. -/
def inStrOf (s : String) : Bool := (scanFold s.data).instr

/-- `_autoclose`: copy the input, then append the pending closers in
reverse-nesting order. -/
def autocloseGo : List Char → ScanSt → List Char
  | [], st => st.stack
  | c :: cs, st => c :: autocloseGo cs (scanStep st c)

def autoclose (s : String) : String :=
  String.mk (autocloseGo s.data ⟨false, false, []⟩)

/-- The scanning loop of `_balanced_slice` (from the first opener, with a
fresh state): returns the region when the stack empties (balanced), when a
closer mismatches the stack (cut at that closer), or — if input ends with a
nonempty stack — the whole remaining tail; `none` when the input ends with
an empty stack (impossible after an opener). -/
def bsGo : List Char → ScanSt → List Char → Option (List Char)
  | [], st, accRev => if st.stack.isEmpty then none else some accRev.reverse
  | c :: cs, st, accRev =>
    if st.instr = false ∧ (c = '}' ∨ c = ']') then
      match st.stack with
      | t :: rest =>
        if t = c then
          if rest.isEmpty then some (accRev.reverse ++ [c])
          else bsGo cs (scanStep st c) (c :: accRev)
        else some (accRev.reverse ++ [c])
      | [] => some (accRev.reverse ++ [c])
    else bsGo cs (scanStep st c) (c :: accRev)

/-- `_balanced_slice`: skip to the first `{`/`[`, then scan. -/
def balancedSliceL (l : List Char) : Option (List Char) :=
  let l' := l.dropWhile (fun c => c != '{' && c != '[')
  match l' with
  | [] => none
  | _ :: _ => bsGo l' ⟨false, false, []⟩ []

def balanced_slice (s : String) : Option String :=
  (balancedSliceL s.data).map String.mk

/-- `_find_regions`: repeatedly take the next balanced slice; when the slice
call fails, advance by one character past the opener.  Fuel is the input
length plus one (each iteration consumes at least one character). -/
def findRegionsGo : Nat → List Char → List (List Char)
  | 0, _ => []
  | f + 1, l =>
    let l' := l.dropWhile (fun c => c != '{' && c != '[')
    match l' with
    | [] => []
    | _ :: rest =>
      match bsGo l' ⟨false, false, []⟩ [] with
      | some cand =>
          if cand.isEmpty then findRegionsGo f rest
          else cand :: findRegionsGo f (l'.drop cand.length)
      | none => findRegionsGo f rest

def find_regions (s : String) : List String :=
  (findRegionsGo (s.data.length + 1) s.data).map String.mk

/-! ### `_coalesce_key_arrays` -/

/-- Scan for the closing `]` of an array opened just before the input
(string-aware, depth starts at 1); returns the inner contents. -/
def coalBodyGo : List Char → Nat → Bool → Bool → List Char → Option (List Char)
  | [], _, _, _, _ => none
  | c :: cs, depth, instr, esc, accRev =>
    if instr then
      if esc then coalBodyGo cs depth true false (c :: accRev)
      else if c = '\\' then coalBodyGo cs depth true true (c :: accRev)
      else if c = '"' then coalBodyGo cs depth false false (c :: accRev)
      else coalBodyGo cs depth true false (c :: accRev)
    else if c = '"' then coalBodyGo cs depth true false (c :: accRev)
    else if c = '[' then coalBodyGo cs (depth + 1) false false (c :: accRev)
    else if c = ']' then
      if depth = 1 then some accRev.reverse
      else coalBodyGo cs (depth - 1) false false (c :: accRev)
    else coalBodyGo cs depth false false (c :: accRev)

/-- Find every `"key"\s*:\s*[` occurrence (continuing, like `finditer`, just
after the opening `[`) and collect the bodies of the arrays that close. -/
def coalFindGo : Nat → List Char → List Char → List (List Char)
  | 0, _, _ => []
  | f + 1, kp, l =>
    match l with
    | [] => []
    | _ :: cs =>
      match (litPrefix kp l).bind (fun r1 =>
        match r1.dropWhile pyWs with
        | ':' :: r2 =>
          match r2.dropWhile pyWs with
          | '[' :: r3 => some r3
          | _ => none
        | _ => none) with
      | some r3 =>
        match coalBodyGo r3 1 false false [] with
        | some body => body :: coalFindGo f kp r3
        | none => coalFindGo f kp r3
      | none => coalFindGo f kp cs

/-- The bodies found by `_coalesce_key_arrays` for a key, in text order. -/
def coalesceBodies (s : String) (key : String) : List (List Char) :=
  coalFindGo (s.data.length + 1) ('"' :: key.data ++ ['"']) s.data

def coalesce_key_arrays (s : String) (key : String) : Option String :=
  let bodies := coalesceBodies s key
  if bodies.length ≤ 1 then none
  else
    some ("\x7b\"" ++ key ++ "\":[" ++
      String.intercalate "," (bodies.map String.mk) ++ "]\x7d")

/-! ### Scorer and normalizer -/

/-- Python `in` substring test. -/
def containsSubGo : Nat → List Char → List Char → Bool
  | 0, _, _ => false
  | f + 1, pat, l =>
    if pat.isPrefixOf l then true
    else
      match l with
      | [] => false
      | _ :: cs => containsSubGo f pat cs

def containsSub (s pat : String) : Bool :=
  containsSubGo (s.data.length + 1) pat.data s.data

/-- Python `str.count`: non-overlapping occurrences. -/
def countSubGo : Nat → List Char → List Char → Nat
  | 0, _, _ => 0
  | f + 1, pat, l =>
    match l with
    | [] => 0
    | _ :: cs =>
      if pat.isPrefixOf l then 1 + countSubGo f pat (l.drop pat.length)
      else countSubGo f pat cs

def countSub (s pat : String) : Nat := countSubGo (s.data.length + 1) pat.data s.data

/-- `_score`. -/
def score (v : JVal) (prefer : Option String) : Int :=
  match asObj v with
  | none => -1
  | some fields =>
    let s1 : Int := if dContains fields "final_rating" then 300 else 0
    let s2 := s1 + (if dContains fields "ans" then 120 else 0)
    let s3 := s2 + (if dContains fields "scene_results" then 110 else 0)
    let s4 := s3 +
      (if dContains fields "non_neutral" || dContains fields "scene_indices" ||
          dContains fields "nn" then 105 else 0)
    let text := json_dumps v
    let s5 := s4 + (if containsSub text "\"vlc\"" || containsSub text "\"det\"" then 10 else 0)
    match prefer with
    | some p => if p ≠ "" ∧ dContains fields p then s5 + 1000 else s5
    | none => s5

/-- Python `prefer in obj` (dict key test; list membership for lists). -/
def pyIn (k : String) (v : JVal) : Bool :=
  match asObj v with
  | some fields => dContains fields k
  | none =>
    match asArr v with
    | some xs => xs.any (fun x => pyEq x (.str k))
    | none => false

/-- `isinstance(x, int)` (booleans included, as in Python). -/
def isInstInt (v : JVal) : Bool :=
  match v with
  | .int _ => true
  | .bool _ => true
  | _ => false

def isObjV (v : JVal) : Bool := (asObj v).isSome

/-- Python `str.strip()`. -/
def pyStrip (s : String) : String :=
  String.mk (((s.data.dropWhile pyStrSpace).reverse.dropWhile pyStrSpace).reverse)

def isDigitsNE (l : List Char) : Bool := !l.isEmpty && l.all Char.isDigit

/-- One entry of the `non_neutral` coercion loop in `_normalize`: ints (and
bools, which Python's `isinstance(x, int)` accepts and the code appends
unchanged) are kept, integer-valued floats become ints, digit strings are
parsed, everything else is dropped. -/
def coerceIndexEntry (x : JVal) : Option JVal :=
  match x with
  | .int n => some (.int n)
  | .bool b => some (.bool b)
  | .float n d =>
      if (d : Int) ≠ 0 ∧ n % (d : Int) = 0 then some (.int (n / (d : Int))) else none
  | .str s =>
      let t := (pyStrip s).data
      if isDigitsNE t then some (.int (digsToNat t)) else none
  | _ => none

/-- The per-record `snt` cleanup inside `_normalize`'s `scene_results`
branch. -/
def snt_clean (sr : JVal) : JVal :=
  match asObj sr with
  | some srf =>
    match dGet srf "snt" with
    | some sv =>
      match asArr sv with
      | some snts => jobj (dSet srf "snt" (jarr (snts.filter isObjV)))
      | none => sr
    | none => sr
  | none => sr

/-- The `nn`/`scene_indices` alias renames of `_normalize`'s dict branch. -/
def normalize_alias (f0 : List (String × JVal)) : List (String × JVal) :=
  let f1 := if dContains f0 "nn" && !dContains f0 "non_neutral" then
      dSet f0 "non_neutral" ((dGet f0 "nn").getD .null) else f0
  if dContains f1 "scene_indices" && !dContains f1 "non_neutral" then
      dSet f1 "non_neutral" ((dGet f1 "scene_indices").getD .null) else f1

/-- The `explanation` placeholder blanking of `_normalize`. -/
def normalize_expl (f2 : List (String × JVal)) : List (String × JVal) :=
  match dGet f2 "explanation" with
  | some (.str e) =>
      if e = "string" ∨ e = "STRING" ∨ e = "0+|6+|12+|16+|18+" then
        dSet f2 "explanation" (.str "") else f2
  | _ => f2

/-- The `final_rating` placeholder removal of `_normalize`. -/
def normalize_rating (f3 : List (String × JVal)) : List (String × JVal) :=
  match dGet f3 "final_rating" with
  | some (.str r) => if r = "0+|6+|12+|16+|18+" then dPop f3 "final_rating" else f3
  | _ => f3

/-- The `scene_results`/`snt` cleanup of `_normalize`. -/
def normalize_srs (f4 : List (String × JVal)) : List (String × JVal) :=
  match dGet f4 "scene_results" with
  | some sv =>
    match asArr sv with
    | some srs => dSet f4 "scene_results" (jarr (srs.map snt_clean))
    | none => f4
  | none => f4

/-- The `non_neutral` integer coercion and deduplication of `_normalize`. -/
def normalize_nn (f5 : List (String × JVal)) : List (String × JVal) :=
  match dGet f5 "non_neutral" with
  | some nv =>
    match asArr nv with
    | some xs => dSet f5 "non_neutral" (jarr (pyDedup (xs.filterMap coerceIndexEntry)))
    | none => f5
  | none => f5

/-- `_normalize`: its dict branch applies the steps above in source order. -/
def normalize (v : JVal) : JVal :=
  match asArr v with
  | some xs =>
    if xs.all isInstInt then jobj [("non_neutral", jarr (pyDedup xs))]
    else if !xs.isEmpty &&
        xs.all (fun x => match asObj x with | some f => dContains f "scID" | none => false) then
      jobj [("scene_results", jarr xs)]
    else jobj [("ans", jarr xs)]
  | none =>
    match asObj v with
    | none => v
    | some f0 =>
      jobj (normalize_nn (normalize_srs (normalize_rating (normalize_expl (normalize_alias f0)))))

/-! ### Last-resort extractors -/

def expectChar (ch : Char) (l : List Char) : Option (List Char) :=
  match l.dropWhile pyWs with
  | c :: rest => if c = ch then some rest else none
  | [] => none

def expectLit (lit : List Char) (l : List Char) : Option (List Char) :=
  litPrefix lit (l.dropWhile pyWs)

def expectDigits (l : List Char) : Option (List Char × List Char) :=
  let r := l.dropWhile pyWs
  let d := r.takeWhile Char.isDigit
  if d.isEmpty then none else some (d, r.drop d.length)

/-- One match of `_STAGE2_ENTRY_RE`
(`"scID"\s*:\s*(\d+)\s*,\s*"id"\s*:\s*(\d+)\s*,\s*"det"\s*:\s*\[(.*?)\]`,
dot-matches-all): the three groups and the input after the match. -/
def s2M (l : List Char) :
    Option ((List Char × List Char × List Char) × List Char) := do
  let r1 ← litPrefix "\"scID\"".data l
  let r2 ← expectChar ':' r1
  let (d1, r3) ← expectDigits r2
  let r4 ← expectChar ',' r3
  let r5 ← expectLit "\"id\"".data r4
  let r6 ← expectChar ':' r5
  let (d2, r7) ← expectDigits r6
  let r8 ← expectChar ',' r7
  let r9 ← expectLit "\"det\"".data r8
  let r10 ← expectChar ':' r9
  let r11 ← expectChar '[' r10
  let body := r11.takeWhile (fun c => c != ']')
  match r11.drop body.length with
  | ']' :: rest => some ((d1, d2, body), rest)
  | _ => none

/-- `finditer` over `_STAGE2_ENTRY_RE`. -/
def s2FindGo : Nat → List Char → List (List Char × List Char × List Char)
  | 0, _ => []
  | f + 1, l =>
    match l with
    | [] => []
    | _ :: cs =>
      match s2M l with
      | some (g, rest) => g :: s2FindGo f rest
      | none => s2FindGo f cs

/-- `_fallback_extract_stage2_ans`. -/
def fallback_extract_stage2_ans (s : String) : Option JVal :=
  let t := replace_type_placeholders (fix_comma_issues (remove_strays
    (sanitize_text_fields (base_clean s))))
  let ms := s2FindGo (t.data.length + 1) t.data
  let items := ms.map (fun g =>
    let detB := (sanitize_text_fields (String.mk g.2.2)).data
    let openC := (detB.filter (fun c => c == '[')).length
    let closeC := (detB.filter (fun c => c == ']')).length
    let detF := detB ++ List.replicate (openC - closeC) ']'
    "\x7b\"scID\":" ++ String.mk g.1 ++ ",\"id\":" ++ String.mk g.2.1 ++
      ",\"det\":[" ++ String.mk detF ++ "]\x7d")
  if items.isEmpty then none
  else
    let ansText := "\x7b\"ans\":[" ++ String.intercalate "," items ++ "]\x7d"
    let ansText := autoclose (fix_comma_issues (remove_strays (sanitize_text_fields ansText)))
    match try_parsers ansText with
    | some v =>
      match asObj v with
      | some fields => if dContains fields "ans" then some v else none
      | none => none
    | none => none

/-- The trailing groups of `_INT_ARRAY_RE` after the first digit run:
`\s*(?:,\s*\d+\s*)*\]`; returns the input after the closing `]`. -/
def intArrTail : Nat → List Char → Option (List Char)
  | 0, _ => none
  | f + 1, l =>
    match l.dropWhile pyWs with
    | ']' :: rest => some rest
    | ',' :: r2 =>
      let r3 := r2.dropWhile pyWs
      let d := r3.takeWhile Char.isDigit
      if d.isEmpty then none else intArrTail f (r3.drop d.length)
    | _ => none

/-- One match of `_INT_ARRAY_RE` (`\[\s*(?:\d+\s*(?:,\s*\d+\s*)*)\]`) at the
current position: the matched text and the rest. -/
def intArrM (l : List Char) : Option (List Char × List Char) :=
  match l with
  | '[' :: r1 =>
    let r2 := r1.dropWhile pyWs
    let d1 := r2.takeWhile Char.isDigit
    if d1.isEmpty then none
    else
      (intArrTail (l.length + 1) (r2.drop d1.length)).map
        (fun rest => (l.take (l.length - rest.length), rest))
  | _ => none

def intArrSearchGo : Nat → List Char → Option (List Char × List Char)
  | 0, _ => none
  | _ + 1, [] => none
  | f + 1, c :: cs =>
    match intArrM (c :: cs) with
    | some r => some r
    | none => intArrSearchGo f cs

/-- Leftmost `_INT_ARRAY_RE` match in a string, if any. -/
def int_array_first_match (s : String) : Option String :=
  (intArrSearchGo (s.data.length + 1) s.data).map (fun p => String.mk p.1)

/-- `_fallback_extract_stage0_non_neutral`: strict-decode the leftmost
bracketed digit-array match; swallow decode failures. -/
def fallback_extract_stage0_non_neutral (s : String) : Option JVal :=
  match int_array_first_match s with
  | none => none
  | some m =>
    match json_loads m with
    | some v =>
      match asArr v with
      | some xs =>
          if xs.all isInstInt then some (jobj [("non_neutral", jarr (pyDedup xs))])
          else none
      | none => none
    | none => none

/-! ### `parse_llm_response` -/

/-- One round of the per-candidate repair loop (the body of the
`for _round in range(6)` loop, before the coalescing step). -/
def repair_round (s : String) : String :=
  let s := replace_type_placeholders s
  let s := normalize_stage2_stray_segments s
  let s := fix_comma_issues s
  let s := remove_strays s
  let s := quote_unquoted_object_keys_safe s
  let s := sanitize_text_fields s
  autoclose s

/-- The duplicated-key coalescing check at the end of each round. -/
def coalesce_step (s : String) : String :=
  let s := if countSub s "\"scene_results\"" > 1 then
      match coalesce_key_arrays s "scene_results" with
      | some c => c
      | none => s
    else s
  if countSub s "\"ans\"" > 1 then
    match coalesce_key_arrays s "ans" with
    | some c => c
    | none => s
  else s

/-- Up to `n` repair rounds; stops at the first decodable text, returning
the decoded value and the repaired text. -/
def tryRounds : Nat → String → Option (JVal × String)
  | 0, _ => none
  | n + 1, s =>
    let r := coalesce_step (repair_round s)
    match try_parsers r with
    | some v => some (v, r)
    | none => tryRounds n r

/-- Search for the final-channel marker
`<\|channel\|\>\s*final\s*<\|message\|\>` (case-insensitive); returns the
input after the match. -/
def finalMarkerGo : Nat → List Char → Option (List Char)
  | 0, _ => none
  | _ + 1, [] => none
  | f + 1, c :: cs =>
    match (ciPrefix "<|channel|>".data (c :: cs)).bind (fun r1 =>
      (ciPrefix "final".data (r1.dropWhile pyWs)).bind (fun r3 =>
        ciPrefix "<|message|>".data (r3.dropWhile pyWs))) with
    | some rest => some rest
    | none => finalMarkerGo f cs

/-- The ordered candidate list of `parse_llm_response`: the final-channel
fragment first (if any), then the balanced regions of the cleaned text,
then — if still empty — the tail from the first `{`. -/
def candidate_list (raw : String) : List String :=
  let stripped := base_clean raw
  let cands0 : List String :=
    match finalMarkerGo (raw.data.length + 1) raw.data with
    | some rest =>
      match balancedSliceL rest with
      | some frag => if frag.isEmpty then [] else [String.mk frag]
      | none => []
    | none => []
  let cands := cands0 ++ find_regions stripped
  if cands.isEmpty && containsSub stripped "\x7b" then
    [String.mk (stripped.data.dropWhile (fun c => c != '{'))]
  else cands

/-- Scored, normalized values of the candidates that decode within six
repair rounds (in candidate order). -/
def candidate_results (raw : String) (prefer : Option String) :
    List (Int × JVal × String) :=
  (candidate_list raw).filterMap (fun cand =>
    (tryRounds 6 (base_clean cand)).map (fun p =>
      let v := normalize p.1
      (score v prefer, v, p.2)))

/-- Stable insert for descending sort: an element goes after all
earlier-seen elements of equal score (Python's stable `sort(reverse=True)`
keeps equal elements in original order). -/
def insDesc (x : Int × JVal × String) :
    List (Int × JVal × String) → List (Int × JVal × String)
  | [] => [x]
  | y :: ys => if x.1 ≥ y.1 then x :: y :: ys else y :: insDesc x ys

def sortDesc (l : List (Int × JVal × String)) : List (Int × JVal × String) :=
  l.foldr insDesc []

/-- `parse_llm_response` (the `debug_dir` sink is modelled separately by
`parse_llm_response_logged`; `encoding`/`effort` are unused by the source).
A raised `ValueError` is modelled as `Except.error`. -/
def parse_llm_response (raw : String) (prefer : Option String) :
    Except String JVal :=
  let stripped := base_clean raw
  let parsed := candidate_results raw prefer
  if parsed.isEmpty then
    match fallback_extract_stage2_ans stripped with
    | some fb2 => .ok (normalize fb2)
    | none =>
      match fallback_extract_stage0_non_neutral stripped with
      | some fb0 => .ok fb0
      | none => .error "Could not parse any JSON from LLM output."
  else
    let sorted := sortDesc parsed
    match prefer with
    | some p =>
      if p ≠ "" then
        match sorted.find? (fun t => pyIn p t.2.1) with
        | some t => .ok t.2.1
        | none =>
          match sorted with
          | t :: _ => .ok t.2.1
          | [] => .error "Could not parse any JSON from LLM output."
      else
        match sorted with
        | t :: _ => .ok t.2.1
        | [] => .error "Could not parse any JSON from LLM output."
    | none =>
      match sorted with
      | t :: _ => .ok t.2.1
      | [] => .error "Could not parse any JSON from LLM output."

def resultOk (r : Except String JVal) : Bool :=
  match r with
  | .ok _ => true
  | .error _ => false

/-! ### The debug sink (`_maybe_dump`) -/

/-- `_maybe_dump`: writes only when a debug directory is supplied and the
write succeeds; a failing write is swallowed (`except Exception: pass`), so
the caller observes nothing either way.  The returned event list records the
files actually written. -/
def maybe_dump (ddir : Option String) (ok : Bool) (fname : String) : List String :=
  match ddir with
  | none => []
  | some d => if ok then [d ++ "/" ++ fname] else []

/-- The candidate loop of `parse_llm_response` with the diagnostic writes
threaded through (`sinkOk n` tells whether the `n`-th write attempt
succeeds); returns the parsed list, the events, and the next write
counter. -/
def candLoopLogged (prefer : Option String) (ddir : Option String)
    (sinkOk : Nat → Bool) :
    List String → Nat → Nat →
      (List (Int × JVal × String) × List String × Nat)
  | [], _, ctr => ([], [], ctr)
  | cand :: rest, idx, ctr =>
    match tryRounds 6 (base_clean cand) with
    | some p =>
      let v := normalize p.1
      let ev := maybe_dump ddir (sinkOk ctr) ("candidate_ok_" ++ toString idx ++ ".json")
      let r := candLoopLogged prefer ddir sinkOk rest (idx + 1) (ctr + 1)
      ((score v prefer, v, p.2) :: r.1, ev ++ r.2.1, r.2.2)
    | none =>
      let ev := maybe_dump ddir (sinkOk ctr) ("candidate_fail_" ++ toString idx ++ ".txt")
      let r := candLoopLogged prefer ddir sinkOk rest (idx + 1) (ctr + 1)
      (r.1, ev ++ r.2.1, r.2.2)

/-- `parse_llm_response` with its diagnostic sink: same control flow, with
every `_maybe_dump` site recorded.  The sink parameters can influence only
the event list, never the result, because `_maybe_dump` swallows all
exceptions. -/
def parse_llm_response_logged (raw : String) (prefer : Option String)
    (ddir : Option String) (sinkOk : Nat → Bool) :
    Except String JVal × List String :=
  let ev0 := maybe_dump ddir (sinkOk 0) "raw.txt"
  let stripped := base_clean raw
  let lp := candLoopLogged prefer ddir sinkOk (candidate_list raw) 0 1
  let parsed := lp.1
  let evs := ev0 ++ lp.2.1
  let ctr := lp.2.2
  if parsed.isEmpty then
    match fallback_extract_stage2_ans stripped with
    | some fb2 =>
        (.ok (normalize fb2), evs ++ maybe_dump ddir (sinkOk ctr) "fallback_stage2_ans.json")
    | none =>
      match fallback_extract_stage0_non_neutral stripped with
      | some fb0 =>
          (.ok fb0, evs ++ maybe_dump ddir (sinkOk ctr) "fallback_stage0_non_neutral.json")
      | none => (.error "Could not parse any JSON from LLM output.", evs)
  else
    let sorted := sortDesc parsed
    match prefer with
    | some p =>
      if p ≠ "" then
        match sorted.find? (fun t => pyIn p t.2.1) with
        | some t => (.ok t.2.1, evs ++ maybe_dump ddir (sinkOk ctr) "chosen.json")
        | none =>
          match sorted with
          | t :: _ => (.ok t.2.1, evs ++ maybe_dump ddir (sinkOk ctr) "chosen.json")
          | [] => (.error "Could not parse any JSON from LLM output.", evs)
      else
        match sorted with
        | t :: _ => (.ok t.2.1, evs ++ maybe_dump ddir (sinkOk ctr) "chosen.json")
        | [] => (.error "Could not parse any JSON from LLM output.", evs)
    | none =>
      match sorted with
      | t :: _ => (.ok t.2.1, evs ++ maybe_dump ddir (sinkOk ctr) "chosen.json")
      | [] => (.error "Could not parse any JSON from LLM output.", evs)

/-- First entry achieving the maximum score: a later entry replaces the
current choice only when its score is strictly greater. -/
def firstMaxScore : List (Int × JVal × String) → Option (Int × JVal × String)
  | [] => none
  | x :: xs =>
    match firstMaxScore xs with
    | none => some x
    | some y => if y.1 > x.1 then some y else some x

/-! ## Supporting lemmas -/

theorem autocloseGo_eq (l : List Char) :
    ∀ st : ScanSt, autocloseGo l st = l ++ (l.foldl scanStep st).stack := by
  induction l with
  | nil => intro st; simp [autocloseGo]
  | cons c cs ih => intro st; simp [autocloseGo, ih]

/-- `_autoclose` copies the input and appends the pending closer stack. -/
theorem autoclose_eq (s : String) : autoclose s = s ++ String.mk (stackOf s) := by
  apply String.ext
  simp [autoclose, autocloseGo_eq, stackOf, scanFold, String.data_append]


/-! ## Supporting lemmas -/

theorem scanStep_closer (st : ScanSt) (c : Char) (hi : st.instr = false)
    (hc : c = '}' ∨ c = ']') :
    (scanStep st c).instr = false ∧
      ((scanStep st c).stack = st.stack ∨
        (∃ ts, st.stack = c :: ts ∧ (scanStep st c).stack = ts)) := by
  rcases hc with h | h <;> subst h <;>
    rcases hst : st.stack with _ | ⟨t, ts⟩ <;>
    simp [scanStep, hi, hst] <;>
    by_cases ht : t = '}' <;> by_cases ht' : t = ']' <;> simp_all

theorem closers_foldl (cl : List Char) :
    ∀ st : ScanSt, st.instr = false → (∀ c ∈ cl, c = '}' ∨ c = ']') →
      (cl.foldl scanStep st).instr = false ∧
        st.stack.length ≤ (cl.foldl scanStep st).stack.length + cl.length := by
  induction cl with
  | nil => intro st hi _; simpa using hi
  | cons c cs ih =>
    intro st hi hcl
    have hc : c = '}' ∨ c = ']' := hcl c (by simp)
    obtain ⟨hi', hstk⟩ := scanStep_closer st c hi hc
    have hrec := ih (scanStep st c) hi' (fun x hx => hcl x (by simp [hx]))
    refine ⟨by simpa using hrec.1, ?_⟩
    have h2 := hrec.2
    simp only [List.foldl_cons, List.length_cons]
    rcases hstk with h | ⟨ts, hts, h⟩
    · rw [h] at h2; omega
    · rw [h] at h2; rw [hts]; simp only [List.length_cons]; omega

theorem closers_foldl_exact (cl : List Char) :
    ∀ st : ScanSt, st.instr = false → (∀ c ∈ cl, c = '}' ∨ c = ']') →
      (cl.foldl scanStep st).stack = [] → cl.length = st.stack.length →
      cl = st.stack := by
  induction cl with
  | nil =>
    intro st _ _ _ hlen
    cases hst : st.stack with
    | nil => rfl
    | cons t ts => rw [hst] at hlen; simp at hlen
  | cons c cs ih =>
    intro st hi hcl hempty hlen
    have hc : c = '}' ∨ c = ']' := hcl c (by simp)
    obtain ⟨hi', hstk⟩ := scanStep_closer st c hi hc
    rcases hstk with h | ⟨ts, hts, h⟩
    · exfalso
      have hb := (closers_foldl cs (scanStep st c)
        hi' (fun x hx => hcl x (by simp [hx]))).2
      simp only [List.foldl_cons] at hempty
      rw [hempty, h] at hb
      simp only [List.length_nil, Nat.zero_add] at hb
      simp only [List.length_cons] at hlen
      omega
    · have hrec := ih (scanStep st c) hi' (fun x hx => hcl x (by simp [hx]))
        (by simpa using hempty)
        (by rw [h]; rw [hts] at hlen; simp only [List.length_cons] at hlen ⊢; omega)
      rw [hts, hrec, h]

theorem sortDesc_cons (x) (xs : List (Int × JVal × String)) :
    sortDesc (x :: xs) = insDesc x (sortDesc xs) := rfl

theorem insDesc_ne_nil (x) (l : List (Int × JVal × String)) : insDesc x l ≠ [] := by
  cases l <;> simp [insDesc] <;> split <;> simp

theorem mem_insDesc {y x : Int × JVal × String} {l : List (Int × JVal × String)} :
    y ∈ insDesc x l ↔ y = x ∨ y ∈ l := by
  induction l with
  | nil => simp [insDesc]
  | cons z zs ih => simp only [insDesc]; split <;> simp [ih] <;> tauto

theorem mem_sortDesc {l : List (Int × JVal × String)} {y} :
    y ∈ sortDesc l ↔ y ∈ l := by
  induction l with
  | nil => simp [sortDesc]
  | cons x xs ih => rw [sortDesc_cons]; simp [mem_insDesc, ih]

theorem sortDesc_ne_nil {l : List (Int × JVal × String)} (h : l ≠ []) :
    sortDesc l ≠ [] := by
  cases l with
  | nil => exact absurd rfl h
  | cons x xs => rw [sortDesc_cons]; exact insDesc_ne_nil x (sortDesc xs)

theorem head?_insDesc (x) (l : List (Int × JVal × String)) :
    (insDesc x l).head? = some (match l.head? with
      | none => x
      | some y => if x.1 ≥ y.1 then x else y) := by
  cases l with
  | nil => rfl
  | cons y ys =>
    simp only [insDesc]
    split <;> rename_i hxy
    · simp only [List.head?]
      rw [if_pos (by omega)]
    · simp only [List.head?]
      rw [if_neg (by omega)]

theorem firstMaxScore_none {l : List (Int × JVal × String)} :
    firstMaxScore l = none ↔ l = [] := by
  cases l with
  | nil => simp [firstMaxScore]
  | cons x xs =>
    simp only [firstMaxScore]
    constructor
    · intro h; cases hf : firstMaxScore xs <;> rw [hf] at h <;> simp at h
      split at h <;> simp at h
    · intro h; simp at h

theorem head?_sortDesc (l : List (Int × JVal × String)) :
    (sortDesc l).head? = firstMaxScore l := by
  induction l with
  | nil => rfl
  | cons x xs ih =>
    rw [sortDesc_cons, head?_insDesc, ih]
    simp only [firstMaxScore]
    cases hf : firstMaxScore xs with
    | none => rfl
    | some y =>
      by_cases hgt : y.1 > x.1
      · have : ¬ x.1 ≥ y.1 := by omega
        simp [hgt, this]
      · have : x.1 ≥ y.1 := by omega
        simp [hgt, this]

theorem firstMaxScore_spec {l : List (Int × JVal × String)} :
    ∀ {t}, firstMaxScore l = some t → t ∈ l ∧ ∀ u ∈ l, u.1 ≤ t.1 := by
  induction l with
  | nil => intro t h; simp [firstMaxScore] at h
  | cons x xs ih =>
    intro t h
    simp only [firstMaxScore] at h
    cases hf : firstMaxScore xs with
    | none =>
      rw [hf] at h
      cases h
      have hxs : xs = [] := firstMaxScore_none.mp hf
      subst hxs
      simp
    | some y =>
      rw [hf] at h
      obtain ⟨hmem, hmax⟩ := ih hf
      by_cases hgt : y.1 > x.1 <;> simp only [hgt, if_pos, if_neg, reduceIte] at h <;> cases h
      · exact ⟨List.mem_cons_of_mem _ hmem, by
          intro u hu
          rcases List.mem_cons.mp hu with rfl | hu'
          · omega
          · exact hmax u hu'⟩
      · exact ⟨List.mem_cons_self _ _, by
          intro u hu
          rcases List.mem_cons.mp hu with rfl | hu'
          · omega
          · have := hmax u hu'; omega⟩

theorem parse_of_nil (raw : String) (p : Option String)
    (h : candidate_results raw p = []) :
    parse_llm_response raw p =
      (match fallback_extract_stage2_ans (base_clean raw) with
       | some fb2 => .ok (normalize fb2)
       | none =>
         match fallback_extract_stage0_non_neutral (base_clean raw) with
         | some fb0 => .ok fb0
         | none => .error "Could not parse any JSON from LLM output.") := by
  unfold parse_llm_response
  simp only [h, List.isEmpty_nil, if_true]

theorem parse_ok_of_ne_nil (raw : String) (p : Option String)
    (h : candidate_results raw p ≠ []) :
    resultOk (parse_llm_response raw p) = true := by
  unfold parse_llm_response
  have hne : (candidate_results raw p).isEmpty = false := by
    simpa [List.isEmpty_iff] using h
  have hs := sortDesc_ne_nil h
  simp only [hne, Bool.false_eq_true, if_false]
  cases hsrt : sortDesc (candidate_results raw p) with
  | nil => exact absurd hsrt hs
  | cons t ts =>
    cases p with
    | none => simp [hsrt, resultOk]
    | some k =>
      by_cases hk : k = ""
      · simp [hk, hsrt, resultOk]
      · simp only [hsrt]
        cases hf : (t :: ts).find? (fun u => pyIn k u.2.1) with
        | some u => simp [hf, hk, resultOk]
        | none => simp [hf, hk, resultOk]

theorem find?_prop {α : Type} (p : α → Bool) {l : List α} {a : α}
    (h : l.find? p = some a) : p a = true := List.find?_some h

theorem find?_none_prop {α : Type} (p : α → Bool) {l : List α}
    (h : l.find? p = none) : ∀ x ∈ l, p x = false := by
  intro x hx
  have := List.find?_eq_none.mp h x hx
  simpa using this

theorem candLoopLogged_fst (prefer ddir : Option String) (sinkOk : Nat → Bool) :
    ∀ (cands : List String) (idx ctr : Nat),
      (candLoopLogged prefer ddir sinkOk cands idx ctr).1 =
        cands.filterMap (fun cand =>
          (tryRounds 6 (base_clean cand)).map (fun p : JVal × String =>
            let v := ParserLLM.normalize p.1
            (score v prefer, v, p.2))) := by
  intro cands
  induction cands with
  | nil => intro idx ctr; rfl
  | cons c cs ih =>
    intro idx ctr
    rw [show candLoopLogged prefer ddir sinkOk (c :: cs) idx ctr =
      (match tryRounds 6 (base_clean c) with
      | some p =>
        let v := ParserLLM.normalize p.1
        let ev := maybe_dump ddir (sinkOk ctr) ("candidate_ok_" ++ toString idx ++ ".json")
        let r := candLoopLogged prefer ddir sinkOk cs (idx + 1) (ctr + 1)
        ((score v prefer, v, p.2) :: r.1, ev ++ r.2.1, r.2.2)
      | none =>
        let ev := maybe_dump ddir (sinkOk ctr) ("candidate_fail_" ++ toString idx ++ ".txt")
        let r := candLoopLogged prefer ddir sinkOk cs (idx + 1) (ctr + 1)
        (r.1, ev ++ r.2.1, r.2.2)) from rfl]
    rw [List.filterMap_cons]
    cases htr : tryRounds 6 (base_clean c) with
    | some p =>
      dsimp only
      exact congrArg (List.cons _) (ih (idx + 1) (ctr + 1))
    | none =>
      dsimp only
      exact ih (idx + 1) (ctr + 1)

theorem parse_logged_fst (raw : String) (prefer ddir : Option String)
    (sinkOk : Nat → Bool) :
    (parse_llm_response_logged raw prefer ddir sinkOk).1 =
      parse_llm_response raw prefer := by
  unfold parse_llm_response_logged parse_llm_response
  dsimp only
  rw [candLoopLogged_fst]
  rw [show ((candidate_list raw).filterMap fun cand =>
      (tryRounds 6 (base_clean cand)).map fun p : JVal × String =>
        let v := ParserLLM.normalize p.1
        (score v prefer, v, p.2)) = candidate_results raw prefer from rfl]
  by_cases hc : (candidate_results raw prefer).isEmpty = true
  · rw [if_pos hc, if_pos hc]
    cases h2 : fallback_extract_stage2_ans (base_clean raw) with
    | some fb2 => rfl
    | none =>
      cases h0 : fallback_extract_stage0_non_neutral (base_clean raw) with
      | some fb0 => rfl
      | none => rfl
  · rw [if_neg hc, if_neg hc]
    cases prefer with
    | none =>
      dsimp only
      cases hsrt : sortDesc (candidate_results raw none) with
      | nil => rfl
      | cons t ts => rfl
    | some k =>
      dsimp only
      by_cases hk : k = ""
      · rw [if_neg (by simp [hk]), if_neg (by simp [hk])]
        cases hsrt : sortDesc (candidate_results raw (some k)) with
        | nil => rfl
        | cons t ts => rfl
      · rw [if_pos hk, if_pos hk]
        cases hf : (sortDesc (candidate_results raw (some k))).find? (fun t => pyIn k t.2.1) with
        | some t => rfl
        | none =>
          cases hsrt : sortDesc (candidate_results raw (some k)) with
          | nil => rfl
          | cons t ts => rfl

theorem scanStep_pop (st : ScanSt) (c : Char) (hi : st.instr = false)
    (hc : c = '}' ∨ c = ']') (ts : List Char) (hst : st.stack = c :: ts) :
    (scanStep st c).stack = ts := by
  rcases hc with h | h <;> subst h <;> simp [scanStep, hi, hst]

theorem scanFold_concat (l : List Char) (c : Char) :
    scanFold (l ++ [c]) = scanStep (scanFold l) c := by
  simp [scanFold, List.foldl_append]

theorem bsGo_cases (l : List Char) :
    ∀ (st : ScanSt) (accRev r : List Char),
      st = scanFold accRev.reverse →
      bsGo l st accRev = some r →
      (scanFold r).stack = [] ∨
        (∃ ch, (ch = '}' ∨ ch = ']') ∧ r.getLast? = some ch) ∨
        r = accRev.reverse ++ l := by
  induction l with
  | nil =>
    intro st accRev r hst h
    simp only [bsGo] at h
    split at h
    · exact absurd h (by simp)
    · cases h
      right; right; simp
  | cons c cs ih =>
    intro st accRev r hst h
    simp only [bsGo] at h
    by_cases hcl : st.instr = false ∧ (c = '}' ∨ c = ']')
    · rw [if_pos hcl] at h
      cases hstk : st.stack with
      | nil =>
        rw [hstk] at h
        cases h
        right; left
        exact ⟨c, hcl.2, List.getLast?_concat _⟩
      | cons t ts =>
        rw [hstk] at h
        dsimp only at h
        by_cases htc : t = c
        · rw [if_pos htc] at h
          by_cases hts : ts.isEmpty
          · rw [if_pos hts] at h
            cases h
            left
            have hts' : ts = [] := by simpa [List.isEmpty_iff] using hts
            rw [scanFold_concat, ← hst]
            rw [scanStep_pop st c hcl.1 hcl.2 ts (htc ▸ hstk)]
            exact hts'
          · rw [if_neg hts] at h
            have hinv : scanStep st c = scanFold ((c :: accRev).reverse) := by
              simp only [List.reverse_cons, scanFold_concat, hst]
            rcases ih (scanStep st c) (c :: accRev) r hinv h with h1 | h2 | h3
            · exact Or.inl h1
            · exact Or.inr (Or.inl h2)
            · right; right
              rw [h3]
              simp
        · rw [if_neg htc] at h
          cases h
          right; left
          exact ⟨c, hcl.2, List.getLast?_concat _⟩
    · rw [if_neg hcl] at h
      have hinv : scanStep st c = scanFold ((c :: accRev).reverse) := by
        simp only [List.reverse_cons, scanFold_concat, hst]
      rcases ih (scanStep st c) (c :: accRev) r hinv h with h1 | h2 | h3
      · exact Or.inl h1
      · exact Or.inr (Or.inl h2)
      · right; right
        rw [h3]
        simp

theorem balancedSliceL_cases {l r : List Char} (h : balancedSliceL l = some r) :
    (scanFold r).stack = [] ∨
      (∃ ch, (ch = '}' ∨ ch = ']') ∧ r.getLast? = some ch) ∨
      r <:+ l := by
  unfold balancedSliceL at h
  cases hll : l.dropWhile (fun c => c != '{' && c != '[') with
  | nil => rw [hll] at h; exact absurd h (by simp)
  | cons a b =>
    rw [hll] at h
    have := bsGo_cases (a :: b) ⟨false, false, []⟩ [] r rfl h
    rcases this with h1 | h2 | h3
    · exact Or.inl h1
    · exact Or.inr (Or.inl h2)
    · right; right
      rw [h3]
      simp only [List.reverse_nil, List.nil_append]
      rw [← hll]
      exact List.dropWhile_suffix _

theorem findRegionsGo_mem (f : Nat) :
    ∀ (l r : List Char), r ∈ findRegionsGo f l →
      (scanFold r).stack = [] ∨
        (∃ ch, (ch = '}' ∨ ch = ']') ∧ r.getLast? = some ch) ∨
        r <:+ l := by
  induction f with
  | zero => intro l r h; simp [findRegionsGo] at h
  | succ f ih =>
    intro l r h
    simp only [findRegionsGo] at h
    cases hll : l.dropWhile (fun c => c != '{' && c != '[') with
    | nil => rw [hll] at h; simp at h
    | cons a b =>
      rw [hll] at h
      dsimp only at h
      have hsfx : (a :: b) <:+ l := hll ▸ List.dropWhile_suffix _
      have hb : b <:+ l := (List.suffix_cons a b).trans hsfx
      cases hbs : bsGo (a :: b) ⟨false, false, []⟩ [] with
      | none =>
        rw [hbs] at h
        rcases ih b r h with h1 | h2 | h3
        · exact Or.inl h1
        · exact Or.inr (Or.inl h2)
        · exact Or.inr (Or.inr (h3.trans hb))
      | some cand =>
        rw [hbs] at h
        dsimp only at h
        by_cases hce : cand.isEmpty
        · rw [if_pos hce] at h
          rcases ih b r h with h1 | h2 | h3
          · exact Or.inl h1
          · exact Or.inr (Or.inl h2)
          · exact Or.inr (Or.inr (h3.trans hb))
        · rw [if_neg hce] at h
          rcases List.mem_cons.mp h with rfl | h'
          · rcases bsGo_cases (a :: b) ⟨false, false, []⟩ [] r rfl hbs with h1 | h2 | h3
            · exact Or.inl h1
            · exact Or.inr (Or.inl h2)
            · right; right
              rw [h3]
              simpa using hsfx
          · rcases ih ((a :: b).drop cand.length) r h' with h1 | h2 | h3
            · exact Or.inl h1
            · exact Or.inr (Or.inl h2)
            · exact Or.inr (Or.inr (h3.trans ((List.drop_suffix _ _).trans hsfx)))

theorem dGet_cons (p : String × JVal) (ps : List (String × JVal)) (k : String) :
    dGet (p :: ps) k = if p.1 == k then some p.2 else dGet ps k := by
  by_cases h : p.1 == k <;> simp [dGet, List.find?, h]

theorem dContains_of_dGet {o : List (String × JVal)} {k : String} {v : JVal}
    (h : dGet o k = some v) : dContains o k = true := by
  induction o with
  | nil => simp [dGet] at h
  | cons p ps ih =>
    rw [dGet_cons] at h
    simp only [dContains, List.any_cons]
    by_cases hk : p.1 == k
    · simp [hk]
    · simp only [hk, Bool.false_or]
      rw [if_neg (by simp_all)] at h
      exact ih h

theorem dGet_dSet_self (o : List (String × JVal)) (k : String) (v : JVal) :
    dGet (dSet o k v) k = some v := by
  induction o with
  | nil => simp [dSet, dGet, List.find?]
  | cons p ps ih =>
    by_cases hk : p.1 == k
    · simp [dSet, hk, dGet_cons]
    · simp only [dSet, hk, Bool.false_eq_true, if_false]
      rw [dGet_cons, if_neg (by simp_all)]
      exact ih

theorem dGet_dSet_ne (o : List (String × JVal)) (k k' : String) (v : JVal)
    (h : k' ≠ k) : dGet (dSet o k v) k' = dGet o k' := by
  have hkk : ¬(k == k') := by simpa using fun e => h e.symm
  induction o with
  | nil => simp [dSet, dGet, List.find?, hkk]
  | cons p ps ih =>
    by_cases hk : p.1 == k
    · have hpk : p.1 = k := by simpa using hk
      have hp' : ¬(p.1 == k') := by
        simp only [hpk]
        exact hkk
      simp [dSet, hk, dGet_cons, hp', hpk, hkk]
    · simp only [dSet, hk, Bool.false_eq_true, if_false]
      rw [dGet_cons, dGet_cons]
      by_cases hp' : p.1 == k'
      · simp [hp']
      · simp [hp', ih]

theorem dGet_dPop_ne (o : List (String × JVal)) (k k' : String)
    (h : k' ≠ k) : dGet (dPop o k) k' = dGet o k' := by
  induction o with
  | nil => simp [dPop, dGet]
  | cons p ps ih =>
    simp only [dPop, List.filter_cons] at ih ⊢
    by_cases hk : p.1 == k
    · have hpk : p.1 = k := by simpa using hk
      have hp' : ¬(p.1 == k') := by
        simp only [hpk]
        simpa using fun e => h e.symm
      rw [show (p.1 != k) = false by simp [hpk]]
      simp only [Bool.false_eq_true, if_false]
      rw [ih, dGet_cons, if_neg hp']
    · rw [show (p.1 != k) = true by simpa using hk]
      simp only [if_true]
      rw [dGet_cons, dGet_cons]
      by_cases hp' : p.1 == k'
      · simp [hp']
      · simp [hp', ih]

theorem asArr_jarr (xs : List JVal) : asArr (jarr xs) = some xs := by
  induction xs with
  | nil => rfl
  | cons x xs ih => simp only [jarr, List.foldr_cons] at ih ⊢; simp [asArr, ih]

theorem asObj_jobj (ms : List (String × JVal)) : asObj (jobj ms) = some ms := by
  induction ms with
  | nil => rfl
  | cons m ms ih => simp only [jobj, List.foldr_cons] at ih ⊢; simp [asObj, ih]

theorem asArr_jobj (ms : List (String × JVal)) : asArr (jobj ms) = none := by
  cases ms <;> rfl

theorem asObj_jarr (xs : List JVal) : asObj (jarr xs) = none := by
  cases xs <;> rfl

theorem dGet_normalize_alias {f0 : List (String × JVal)} {w : JVal}
    (h : dGet f0 "non_neutral" = some w) : normalize_alias f0 = f0 := by
  have hc : dContains f0 "non_neutral" = true := dContains_of_dGet h
  simp [normalize_alias, hc]

theorem dGet_normalize_expl (f : List (String × JVal)) :
    dGet (normalize_expl f) "non_neutral" = dGet f "non_neutral" := by
  unfold normalize_expl
  cases hde : dGet f "explanation" with
  | none => rfl
  | some v =>
    cases v <;> try rfl
    rename_i e
    dsimp only
    split
    · exact dGet_dSet_ne f "explanation" "non_neutral" (.str "") (by decide)
    · rfl

theorem dGet_normalize_rating (f : List (String × JVal)) :
    dGet (normalize_rating f) "non_neutral" = dGet f "non_neutral" := by
  unfold normalize_rating
  cases hde : dGet f "final_rating" with
  | none => rfl
  | some v =>
    cases v <;> try rfl
    rename_i r
    dsimp only
    split
    · exact dGet_dPop_ne f "final_rating" "non_neutral" (by decide)
    · rfl

theorem dGet_normalize_srs (f : List (String × JVal)) :
    dGet (normalize_srs f) "non_neutral" = dGet f "non_neutral" := by
  unfold normalize_srs
  cases hde : dGet f "scene_results" with
  | none => rfl
  | some sv =>
    dsimp only
    cases hsv : asArr sv with
    | none => rfl
    | some srs =>
      dsimp only
      exact dGet_dSet_ne f "scene_results" "non_neutral" _ (by decide)



/-! ## Claims -/

/-- C1 (corrected): round-trip on clean input holds only when the textual
repair passes are no-ops on the text.  If a clean canonical document is its
own single candidate region, every repair pass leaves it unchanged, neither
container key is duplicated, it strict-decodes, and the decoded value is a
fixed point of schema normalization, then `parse_llm_response` returns
exactly the strict decode.  (As stated, the original claim is refuted by
`c1_counterexample_brace_in_string`: the comma-boundary fix rewrites
brace sequences inside string values.) -/
theorem c1_roundtrip_clean (s : String) (v : JVal)
    (hbc : base_clean s = s)
    (hlist : candidate_list s = [s])
    (h1 : replace_type_placeholders s = s)
    (h2 : normalize_stage2_stray_segments s = s)
    (h3 : fix_comma_issues s = s)
    (h4 : remove_strays s = s)
    (h5 : quote_unquoted_object_keys_safe s = s)
    (h6 : sanitize_text_fields s = s)
    (h7 : autoclose s = s)
    (hc1 : countSub s "\"scene_results\"" ≤ 1)
    (hc2 : countSub s "\"ans\"" ≤ 1)
    (hdec : json_loads s = some v)
    (hnorm : normalize v = v) :
    parse_llm_response s none = .ok v := by
  have hrr : repair_round s = s := by
    simp only [repair_round, h1, h2, h3, h4, h5, h6, h7]
  have hcs : coalesce_step s = s := by
    have hn1 : ¬ (countSub s "\"scene_results\"" > 1) := by omega
    have hn2 : ¬ (countSub s "\"ans\"" > 1) := by omega
    simp only [coalesce_step, hn1, hn2, if_false, reduceIte]
  have htr : tryRounds 6 s = some (v, s) := by
    have step : tryRounds 6 s =
        (match try_parsers (coalesce_step (repair_round s)) with
         | some w => some (w, coalesce_step (repair_round s))
         | none => tryRounds 5 (coalesce_step (repair_round s))) := rfl
    rw [step, hrr, hcs]
    simp only [try_parsers, hdec]
  have hcr : candidate_results s none = [(score v none, v, s)] := by
    simp only [candidate_results, hlist, List.filterMap, hbc, htr, Option.map_some, hnorm]
    simp [List.filterMap, hbc, htr, hnorm]
  rw [parse_llm_response]
  simp [hcr, sortDesc, insDesc]


/-- Witness for C1 at a clean canonical index-set document. -/
theorem c1_roundtrip_clean_witness :
    parse_llm_response "\x7b\"non_neutral\": [1, 2]\x7d" none =
      .ok (jobj [("non_neutral", jarr [.int 1, .int 2])]) :=
  c1_roundtrip_clean "\x7b\"non_neutral\": [1, 2]\x7d"
    (jobj [("non_neutral", jarr [.int 1, .int 2])])
    rfl rfl rfl rfl rfl rfl rfl rfl rfl (by decide) (by decide) rfl rfl

/-- Counterexample to C1 as stated: on the already-clean document
`{"ans": ["a} {b"]}` the pipeline returns a different value than the strict
decode, because `_fix_comma_issues` rewrites the brace sequence inside the
string value. -/
theorem c1_counterexample_brace_in_string :
    parse_llm_response "\x7b\"ans\": [\"a\x7d \x7bb\"]\x7d" none =
      .ok (jobj [("ans", jarr [.str "a\x7d,\x7bb"])]) ∧
    json_loads "\x7b\"ans\": [\"a\x7d \x7bb\"]\x7d" =
      some (jobj [("ans", jarr [.str "a\x7d \x7bb"])]) ∧
    (jobj [("ans", jarr [.str "a\x7d,\x7bb"])] : JVal) ≠
      jobj [("ans", jarr [.str "a\x7d \x7bb"])] :=
  ⟨rfl, rfl, by decide⟩

set_option maxRecDepth 100000 in
/-- C2 (code bug): on the specified scenario input with bare keys and an
embedded unescaped quote, the sanitizer leaves the candidate unchanged (its
match group can never contain an unescaped quote, so the escape branch is
dead code) and `parse_llm_response` raises instead of returning the object
with the quote preserved. -/
theorem c2_sanitizer_dead_code_eval :
    sanitize_field_quotes "\"rsn\":\"he said \"ok\" then left\"" "rsn" =
      "\"rsn\":\"he said \"ok\" then left\"" ∧
    resultOk (parse_llm_response
      "\x7brsn: \"he said \"ok\" then left\", adv: \"fix it\"\x7d" none) = false :=
  ⟨rfl, rfl⟩

/-- C3 (corrected): `parse_llm_response` fails hard exactly when no
candidate decodes within six repair rounds, the stage-2 triplet fallback
yields nothing, and the stage-0 fallback yields nothing; the stage-0
fallback certainly yields nothing when no bracketed digit-array matches;
and whenever the stage-0 fallback extracts a value the call is recovered
rather than failing.  (As stated, the original claim is refuted by
`c3_counterexample_leading_zero_array`: only the leftmost regex match is
strict-decoded, so an input containing a decodable bracketed integer array
can still fail.) -/
theorem c3_total_failure_iff (raw : String) (p : Option String) :
    (resultOk (parse_llm_response raw p) = false ↔
      (candidate_results raw p = [] ∧
       fallback_extract_stage2_ans (base_clean raw) = none ∧
       fallback_extract_stage0_non_neutral (base_clean raw) = none))
    ∧ (int_array_first_match (base_clean raw) = none →
        fallback_extract_stage0_non_neutral (base_clean raw) = none)
    ∧ ((fallback_extract_stage0_non_neutral (base_clean raw)).isSome = true →
        resultOk (parse_llm_response raw p) = true) := by
  refine ⟨⟨?_, ?_⟩, ?_, ?_⟩
  · intro hfail
    by_cases hc : candidate_results raw p = []
    · refine ⟨hc, ?_, ?_⟩
      · cases h2 : fallback_extract_stage2_ans (base_clean raw) with
        | none => rfl
        | some fb2 =>
          rw [parse_of_nil raw p hc, h2] at hfail
          simp [resultOk] at hfail
      · cases h0 : fallback_extract_stage0_non_neutral (base_clean raw) with
        | none => rfl
        | some fb0 =>
          cases h2 : fallback_extract_stage2_ans (base_clean raw) with
          | some fb2 =>
            rw [parse_of_nil raw p hc, h2] at hfail
            simp [resultOk] at hfail
          | none =>
            rw [parse_of_nil raw p hc, h2, h0] at hfail
            simp [resultOk] at hfail
    · rw [parse_ok_of_ne_nil raw p hc] at hfail
      simp at hfail
  · rintro ⟨hc, h2, h0⟩
    rw [parse_of_nil raw p hc, h2, h0]
    rfl
  · intro hm
    unfold fallback_extract_stage0_non_neutral
    rw [hm]
  · intro h0
    by_cases hc : candidate_results raw p = []
    · rw [parse_of_nil raw p hc]
      cases h2 : fallback_extract_stage2_ans (base_clean raw) with
      | some fb2 => simp [resultOk]
      | none =>
        cases h0' : fallback_extract_stage0_non_neutral (base_clean raw) with
        | some fb0 => simp [resultOk]
        | none => rw [h0'] at h0; simp at h0
    · exact parse_ok_of_ne_nil raw p hc


/-- Witness for C3: prose with no bracketed array fails hard; the same
prose with a bracketed integer array is recovered. -/
theorem c3_total_failure_iff_witness :
    resultOk (parse_llm_response "non_neutral indices are 3, 7, 9" none) = false ∧
    fallback_extract_stage0_non_neutral
      (base_clean "non_neutral indices are 3, 7, 9") = none ∧
    resultOk (parse_llm_response "non_neutral indices are [3, 7, 9]" none) = true :=
  ⟨(c3_total_failure_iff "non_neutral indices are 3, 7, 9" none).1.mpr ⟨rfl, rfl, rfl⟩,
   (c3_total_failure_iff "non_neutral indices are 3, 7, 9" none).2.1 rfl,
   (c3_total_failure_iff "non_neutral indices are [3, 7, 9]" none).2.2 rfl⟩

/-- Counterexample to C3 as stated: this input contains the bracketed
integer array `[7]`, yet the call fails hard — the stage-0 fallback only
strict-decodes its leftmost match `[007]`, which has leading zeros. -/
theorem c3_counterexample_leading_zero_array :
    resultOk (parse_llm_response "\x7ba [007] [7]" none) = false ∧
    containsSub (base_clean "\x7ba [007] [7]") "[7]" = true ∧
    int_array_first_match (base_clean "\x7ba [007] [7]") = some "[007]" :=
  ⟨rfl, rfl, rfl⟩

/-- C4 (confirmed): `_coalesce_key_arrays` returns the synthesized
single-key object whose array body is the comma-joined concatenation of the
found array bodies in left-to-right text order when at least two are found,
and nothing when fewer than two are found. -/
theorem c4_coalesce_spec (s key : String) :
    (2 ≤ (coalesceBodies s key).length →
      coalesce_key_arrays s key =
        some ("\x7b\"" ++ key ++ "\":[" ++
          String.intercalate "," ((coalesceBodies s key).map String.mk) ++ "]\x7d"))
    ∧ ((coalesceBodies s key).length ≤ 1 → coalesce_key_arrays s key = none) := by
  constructor
  · intro h
    have hn : ¬ (coalesceBodies s key).length ≤ 1 := by omega
    simp [coalesce_key_arrays, hn]
  · intro h
    simp [coalesce_key_arrays, h]

/-- Witness for C4 on two `items` arrays and on a single one. -/
theorem c4_coalesce_spec_witness :
    coalesce_key_arrays "\x7b\"items\":[1,2]\x7d \x7b\"items\":[3]\x7d" "items" =
      some "\x7b\"items\":[1,2,3]\x7d" ∧
    coalesce_key_arrays "\x7b\"items\":[1,2]\x7d" "items" = none :=
  ⟨(c4_coalesce_spec "\x7b\"items\":[1,2]\x7d \x7b\"items\":[3]\x7d" "items").1 (by decide),
   (c4_coalesce_spec "\x7b\"items\":[1,2]\x7d" "items").2 (by decide)⟩

/-- C5 (confirmed): for input not ending inside a string literal,
`_autoclose` returns exactly the input with the pending closers of the
string-aware bracket stack appended in reverse-nesting order; consequently
a well-formed JSON document with its trailing run of closers removed is
restored verbatim by auto-close, so every non-truncated field decodes to
the same value as in the original. -/
theorem c5_autoclose_appends_closers (s t c : String) (v : JVal) (hs : inStrOf s = false) :
    autoclose s = s ++ String.mk (stackOf s) ∧
    (s = t ++ c → inStrOf t = false → c.data ≠ [] →
      (∀ x ∈ c.data, x = '}' ∨ x = ']') →
      c.data.length = (stackOf t).length →
      stackOf s = [] → json_loads s = some v →
      json_loads (autoclose t) = some v) := by
  refine ⟨autoclose_eq s, ?_⟩
  intro hsplit hit hne hcl hlen hbal hdec
  have hit' : (scanFold t.data).instr = false := hit
  have hsdata : s.data = t.data ++ c.data := by rw [hsplit, String.data_append]
  have hfold : scanFold s.data = c.data.foldl scanStep (scanFold t.data) := by
    rw [hsdata]; simp [scanFold, List.foldl_append]
  have hempty : (c.data.foldl scanStep (scanFold t.data)).stack = [] := by
    rw [← hfold]; exact hbal
  have hexact : c.data = (scanFold t.data).stack :=
    closers_foldl_exact c.data (scanFold t.data) hit' hcl hempty hlen
  have hmk : String.mk (stackOf t) = c := by
    apply String.ext
    exact hexact.symm
  have hac : autoclose t = s := by
    rw [autoclose_eq t, hmk, hsplit]
  rw [hac]; exact hdec

/-- Witness for C5: auto-closing an unterminated array, and restoring a
JSON document truncated by its final two closers. -/
theorem c5_autoclose_appends_closers_witness :
    autoclose "[1" = "[1]" ∧
    json_loads (autoclose "\x7b\"a\": [1, 2") =
      some (jobj [("a", jarr [.int 1, .int 2])]) :=
  ⟨(c5_autoclose_appends_closers "[1" "" "" JVal.null rfl).1,
   (c5_autoclose_appends_closers "\x7b\"a\": [1, 2]\x7d" "\x7b\"a\": [1, 2" "]\x7d"
      (jobj [("a", jarr [.int 1, .int 2])]) rfl).2
     rfl rfl (by decide) (by decide) (by decide) rfl rfl⟩

/-- C6 (confirmed): when `prefer` is supplied (non-empty) and some decoded,
normalized candidate contains that key, the returned value contains the
key, regardless of any structural score; when `prefer` is absent, the
first-seen candidate of maximal heuristic score is returned (stable
tie-breaking), and that choice is indeed a member attaining the maximum
score. -/
theorem c6_preferred_key_selection (raw : String) (k : String) :
    (k ≠ "" → (∃ t ∈ candidate_results raw (some k), pyIn k t.2.1 = true) →
      ∃ v, parse_llm_response raw (some k) = .ok v ∧ pyIn k v = true)
    ∧ (∀ t, firstMaxScore (candidate_results raw none) = some t →
        parse_llm_response raw none = .ok t.2.1)
    ∧ (∀ t, firstMaxScore (candidate_results raw none) = some t →
        t ∈ candidate_results raw none ∧
          ∀ u ∈ candidate_results raw none, u.1 ≤ t.1) := by
  refine ⟨?_, ?_, fun t ht => firstMaxScore_spec ht⟩
  · rintro hk ⟨t0, ht0mem, ht0in⟩
    have hne : candidate_results raw (some k) ≠ [] := by
      intro h
      rw [h] at ht0mem
      exact absurd ht0mem (List.not_mem_nil t0)
    have hne' : (candidate_results raw (some k)).isEmpty = false := by
      simpa [List.isEmpty_iff] using hne
    have hs := sortDesc_ne_nil hne
    unfold parse_llm_response
    simp only [hne', Bool.false_eq_true, if_false]
    cases hf : (sortDesc (candidate_results raw (some k))).find? (fun u => pyIn k u.2.1) with
    | some u =>
      have hpu := find?_prop (fun x : Int × JVal × String => pyIn k x.2.1) hf
      simp only [] at hpu
      refine ⟨u.2.1, ?_, hpu⟩
      simp [hf, hk]
    | none =>
      exfalso
      have hfl := find?_none_prop (fun x : Int × JVal × String => pyIn k x.2.1) hf t0 (mem_sortDesc.mpr ht0mem)
      simp only [] at hfl
      rw [ht0in] at hfl
      exact Bool.noConfusion hfl
  · intro t ht
    have hne : candidate_results raw none ≠ [] := by
      intro h
      rw [h] at ht
      simp [firstMaxScore] at ht
    have hne' : (candidate_results raw none).isEmpty = false := by
      simpa [List.isEmpty_iff] using hne
    unfold parse_llm_response
    simp only [hne', Bool.false_eq_true, if_false]
    have hh : (sortDesc (candidate_results raw none)).head? = some t := by
      rw [head?_sortDesc]
      exact ht
    cases hsrt : sortDesc (candidate_results raw none) with
    | nil => rw [hsrt] at hh; simp at hh
    | cons u us =>
      rw [hsrt] at hh
      simp at hh
      simp [hh]


/-- Witness for C6: with `prefer = "a"` the low-scoring candidate holding
the key wins; without `prefer` the maximal-score candidate wins. -/
theorem c6_preferred_key_selection_witness :
    (∃ v, parse_llm_response "\x7b\"a\": 1\x7d \x7b\"non_neutral\": [1]\x7d" (some "a") =
        .ok v ∧ pyIn "a" v = true) ∧
    parse_llm_response "\x7b\"a\": 1\x7d \x7b\"non_neutral\": [1]\x7d" none =
      .ok (jobj [("non_neutral", jarr [.int 1])]) := by
  constructor
  · refine (c6_preferred_key_selection
      "\x7b\"a\": 1\x7d \x7b\"non_neutral\": [1]\x7d" "a").1 (by decide)
      ⟨(1000, jobj [("a", .int 1)], "\x7b\"a\": 1\x7d"), ?_, rfl⟩
    rw [show candidate_results "\x7b\"a\": 1\x7d \x7b\"non_neutral\": [1]\x7d" (some "a") =
      [(1000, jobj [("a", .int 1)], "\x7b\"a\": 1\x7d"),
       (105, jobj [("non_neutral", jarr [.int 1])], "\x7b\"non_neutral\": [1]\x7d")] from rfl]
    exact List.mem_cons_self _ _
  · exact (c6_preferred_key_selection
      "\x7b\"a\": 1\x7d \x7b\"non_neutral\": [1]\x7d" "a").2.1
      (105, jobj [("non_neutral", jarr [.int 1])], "\x7b\"non_neutral\": [1]\x7d") rfl

/-- C7 (corrected): a candidate region emitted by the Region Extractor is
balanced (its string-aware bracket stack empties) unless it was cut at a
closing bracket (balanced close or mismatched closer — in either case the
region ends in a closer) or it is the unterminated tail of the scan (a
suffix of the input, left for auto-close to repair).  (The original
unconditional balance invariant is refuted by
`c7_counterexample_unbalanced_region`.) -/
theorem c7_region_balance_amended (s : String) :
    ∀ r ∈ find_regions s,
      stackOf r = [] ∨
        (∃ ch, (ch = '}' ∨ ch = ']') ∧ r.data.getLast? = some ch) ∨
        r.data <:+ s.data := by
  intro r hr
  unfold find_regions at hr
  rcases List.mem_map.mp hr with ⟨rl, hrl, rfl⟩
  have := findRegionsGo_mem (s.data.length + 1) s.data rl hrl
  simpa [stackOf] using this


/-- Witness for C7 at a balanced region. -/
theorem c7_region_balance_amended_witness :
    stackOf "[1]" = [] ∨
      (∃ ch, (ch = '}' ∨ ch = ']') ∧ ("[1]" : String).data.getLast? = some ch) ∨
      ("[1]" : String).data <:+ ("[1]" : String).data :=
  c7_region_balance_amended "[1]" "[1]"
    (by rw [show find_regions "[1]" = ["[1]"] from rfl]; exact List.mem_cons_self _ _)

/-- Counterexample to C7 as stated: the unterminated tail `[1` is emitted
as a candidate region although its bracket stack is nonempty. -/
theorem c7_counterexample_unbalanced_region :
    find_regions "[1" = ["[1"] ∧ stackOf "[1" ≠ [] :=
  ⟨rfl, by decide⟩

/-- C8 (confirmed): normalizing a decoded object under the index-set schema
(the `non_neutral` container) canonicalizes the entry list by coercing ints
(and bools, which Python treats as ints), integer-valued floats, and digit
strings to integers, dropping all other entries without failing, and
de-duplicating by first occurrence. -/
theorem c8_index_canonicalization (fields : List (String × JVal)) (xs : List JVal)
    (h : dGet fields "non_neutral" = some (jarr xs)) :
    ∃ fields', ParserLLM.normalize (jobj fields) = jobj fields' ∧
      dGet fields' "non_neutral" =
        some (jarr (pyDedup (xs.filterMap coerceIndexEntry))) := by
  unfold ParserLLM.normalize
  rw [asArr_jobj, asObj_jobj]
  refine ⟨_, rfl, ?_⟩
  have h5 : dGet (normalize_srs (normalize_rating (normalize_expl (normalize_alias fields))))
      "non_neutral" = some (jarr xs) := by
    rw [dGet_normalize_srs, dGet_normalize_rating, dGet_normalize_expl,
      dGet_normalize_alias h, h]
  unfold normalize_nn
  rw [h5]
  dsimp only
  rw [asArr_jarr]
  exact dGet_dSet_self _ "non_neutral" _

/-- Witness for C8: the `[1,2,2,3]` scenario, and a mixed entry list with a
numeric string, an integer-valued float, droppable entries and a
duplicate. -/
theorem c8_index_canonicalization_witness :
    (∃ fields', normalize (jobj [("non_neutral", jarr [.int 1, .int 2, .int 2, .int 3])]) =
        jobj fields' ∧
      dGet fields' "non_neutral" = some (jarr [.int 1, .int 2, .int 3])) ∧
    (∃ fields', normalize (jobj [("non_neutral",
        jarr [.int 1, .str " 2 ", .float 2 1, .str "x", .null, .int 3, .int 1])]) =
        jobj fields' ∧
      dGet fields' "non_neutral" = some (jarr [.int 1, .int 2, .int 3])) :=
  ⟨c8_index_canonicalization [("non_neutral", jarr [.int 1, .int 2, .int 2, .int 3])]
      [.int 1, .int 2, .int 2, .int 3] rfl,
   c8_index_canonicalization
      [("non_neutral", jarr [.int 1, .str " 2 ", .float 2 1, .str "x", .null, .int 3, .int 1])]
      [.int 1, .str " 2 ", .float 2 1, .str "x", .null, .int 3, .int 1] rfl⟩

/-- C9 (confirmed): the diagnostic sink is write-only — the returned value
(or failure) of `parse_llm_response` is the same whether or not a debug
directory is supplied and whichever write attempts fail, because
`_maybe_dump` swallows every exception. -/
theorem c9_debug_sink_noninterference (raw : String) (prefer d1 d2 : Option String)
    (k1 k2 : Nat → Bool) :
    (parse_llm_response_logged raw prefer d1 k1).1 = parse_llm_response raw prefer ∧
    (parse_llm_response_logged raw prefer d1 k1).1 =
      (parse_llm_response_logged raw prefer d2 k2).1 := by
  refine ⟨parse_logged_fst raw prefer d1 k1, ?_⟩
  rw [parse_logged_fst, parse_logged_fst]

/-- C10 (confirmed): a decoded empty array always classifies as an (empty)
index set — `{"non_neutral": []}` — never as the `ans` or `scene_results`
container, and `parse_llm_response` on the bare text `[]` returns exactly
that. -/
theorem c10_empty_array_classification :
    normalize (jarr []) = jobj [("non_neutral", jarr [])] ∧
    parse_llm_response "[]" none = .ok (jobj [("non_neutral", jarr [])]) :=
  ⟨rfl, rfl⟩

end ParserLLM
